import Mathlib

/-
  Verification development for the calendar classification-and-rewrite engine
  (scripts/calendar_enhancer.py, scripts/calendar_lib.py).

  The Python source is shallowly embedded: titles are `String`s (processed as
  `List Char`), datetimes are integer timestamps in seconds paired with their
  `%Y-%m-%d` rendering, the client roster is an association list, and the
  per-event engine loop is a structural recursion producing the per-event
  outcome, the list of mutating update calls, and the run tally.

  Character-class functions (`\s`, `\w`, `str.lower`, `str.strip`) are
  modelled on the ASCII range the program manipulates.
-/

set_option linter.unusedVariables false

namespace CalEnh

/-- Whitespace test modelling Python's `\s` character class and `str.strip()`
on the ASCII range. -/
def isWS (c : Char) : Bool :=
  c = ' ' || c = '\t' || c = '\n' || c = '\r' || c = '\x0b' || c = '\x0c'

/-- Word-character test modelling Python's regex `\w` on the ASCII range. -/
def isWordChar (c : Char) : Bool :=
  c.isAlphanum || c = '_'

/-- Lower-casing of one character, modelling `str.lower()` on ASCII input. -/
def lowerChar (c : Char) : Char :=
  if 'A' ≤ c ∧ c ≤ 'Z' then Char.ofNat (c.toNat + 32) else c

/-- Upper-casing of one character, modelling `str.upper()` on ASCII input. -/
def upperChar (c : Char) : Char :=
  if 'a' ≤ c ∧ c ≤ 'z' then Char.ofNat (c.toNat - 32) else c

/-- Lower-casing of a character list. -/
def lowerL (l : List Char) : List Char := l.map lowerChar

/-- Model of Python `str.strip()`: drop whitespace from both ends. -/
def trimL (l : List Char) : List Char :=
  ((l.dropWhile isWS).reverse.dropWhile isWS).reverse

/-- Model of `re.sub(r'\s+$', '', s)`: drop trailing whitespace only. -/
def rstripWS (l : List Char) : List Char :=
  (l.reverse.dropWhile isWS).reverse

/-- Accumulator pass behind `splitWS`. -/
def splitWSAux : List Char → List Char → List (List Char)
  | [], acc => if acc = [] then [] else [acc.reverse]
  | c :: cs, acc =>
    if isWS c then
      if acc = [] then splitWSAux cs [] else acc.reverse :: splitWSAux cs []
    else splitWSAux cs (c :: acc)

/-- Model of Python `str.split()` (no argument): whitespace-separated tokens,
empty tokens discarded. -/
def splitWS (l : List Char) : List (List Char) := splitWSAux l []

/-- Model of `' '.join(tokens)`. -/
def joinSpace : List (List Char) → List Char
  | [] => []
  | [x] => x
  | x :: y :: r => x ++ ' ' :: joinSpace (y :: r)

/-- Leading-match test: does the first list occur at the head of the second? -/
def leadsList : List Char → List Char → Bool
  | [], _ => true
  | _ :: _, [] => false
  | a :: as, b :: bs => a == b && leadsList as bs

/-- Substring test: model of Python's `pat in s` for plain strings. -/
def hasSub (p : List Char) : List Char → Bool
  | [] => p.isEmpty
  | c :: t => leadsList p (c :: t) || hasSub p t

/-- Boundary test for the character preceding a word-boundary match. -/
def boundaryB : Option Char → Bool
  | none => true
  | some c => !isWordChar c

/-- Boundary test for the text following a word-boundary match. -/
def boundaryA : List Char → Bool
  | [] => true
  | c :: _ => !isWordChar c

/-- Scanner behind `wordHit`, carrying the previously seen character. -/
def wordHitAux (w : List Char) : Option Char → List Char → Bool
  | _, [] => false
  | prev, c :: t =>
    (leadsList w (c :: t) && boundaryB prev && boundaryA ((c :: t).drop w.length)) ||
    wordHitAux w (some c) t

/-- Model of `re.search(r'\bw\b', hay)` for a keyword `w` made of word
characters. -/
def wordHit (w : List Char) (hay : List Char) : Bool := wordHitAux w none hay

/-! ## Star counting and the already-processed marker -/

/-- Model of `count_stars_in_summary`: length of the leading run of `*`. -/
def count_stars_in_summary (summary : String) : Nat :=
  (summary.data.takeWhile (fun c => c == '*')).length

/-- Model of `re.sub(r'^\*+\s*', '', s)`: strip a leading run of stars and the
whitespace that follows it; no change when the string does not start with `*`. -/
def stripStars (l : List Char) : List Char :=
  match l with
  | c :: _ => if c == '*' then (l.dropWhile (fun d => d == '*')).dropWhile isWS else l
  | [] => l

/-- Model of `should_skip_event`: true only for an empty title. -/
def should_skip_event (summary : String) : Bool := summary == ""

/-- Scanner for `re.match(r'^\[.*?\]', s)` after the opening bracket: succeeds
exactly when a `]` is reached before any newline. -/
def apScan : List Char → Bool
  | [] => false
  | c :: t => c == ']' || (c != '\n' && apScan t)

/-- Model of `is_already_processed`: the title matches `^\[.*?\]`. -/
def is_already_processed (summary : String) : Bool :=
  match summary.data with
  | c :: rest => c == '[' && apScan rest
  | [] => false

/-! ## Work-type classification -/

/-- Design-keyword test of `determine_work_type`: substring matches for
design/consultation/estimate, word-boundary matches for planning/plan. -/
def designHit (l : List Char) : Bool :=
  hasSub "design".data l || hasSub "consultation".data l ||
  wordHit "planning".data l || wordHit "plan".data l || hasSub "estimate".data l

/-- Office-keyword test of `determine_work_type`. -/
def officeHit (l : List Char) : Bool :=
  hasSub "office".data l || hasSub "invoice".data l || hasSub "quote".data l ||
  hasSub "admin".data l || hasSub "paperwork".data l || hasSub "follow-up".data l

/-- Errands-keyword test of `determine_work_type`. -/
def errandsHit (l : List Char) : Bool :=
  hasSub "errands".data l || hasSub "supply".data l || hasSub "pickup".data l ||
  hasSub "equipment service".data l || hasSub "shop".data l ||
  hasSub "truck service".data l || hasSub "tool".data l ||
  hasSub "equipment maintenance".data l || hasSub "repair".data l

/-- Ad-hoc-keyword test of `determine_work_type`. -/
def adhocHit (l : List Char) : Bool :=
  hasSub "storm".data l || hasSub "emergency".data l ||
  hasSub "urgent".data l || hasSub "fix".data l

/-- The lower-cased, star-stripped text `determine_work_type` analyses. -/
def cleanLower (summary : String) : List Char := lowerL (stripStars summary.data)

/-- Model of `determine_work_type`. -/
def determine_work_type (summary : String) : String :=
  if summary == "" then "Maintenance"
  else
    let c := cleanLower summary
    if designHit c then "Design"
    else if officeHit c then "Office Work"
    else if errandsHit c then "Errands"
    else if adhocHit c then "Ad-hoc"
    else "Maintenance"

/-! ## Status resolution -/

/-- Model of `determine_status`. Event and reference instants are integer
timestamps in seconds; `(event_date - reference_date).days` is Python's
floor-division of the difference by 86400, and `abs(days_diff) <= 14` is the
`natAbs` bound. -/
def determine_status (summary : String) (event_ts ref_ts : Int) : String × String :=
  let sc := count_stars_in_summary summary
  if sc = 0 then ("confirmed", "C")
  else if sc = 1 then
    let days_diff := Int.fdiv (event_ts - ref_ts) 86400
    if days_diff.natAbs ≤ 14 then ("confirmed", "C") else ("tentative", "T")
  else ("planning", "P")

/-! ## Title formatting -/

/-- Model of `" ".join(parts)`. -/
def joinParts : List String → String
  | [] => ""
  | [p] => p
  | p :: q :: r => p ++ " " ++ joinParts (q :: r)

/-- Model of `create_standardized_title`. A `none` or empty client name takes
the non-client branch, mirroring Python truthiness. -/
def create_standardized_title (status_label : String) (client_name : Option String)
    (work_type : String) (helper_info : Option String) (notes : String) : String :=
  let mid :=
    match client_name with
    | some c => if c == "" then [work_type] else [c, "-", work_type]
    | none => [work_type]
  let helperPart :=
    match helper_info with
    | some h => if h == "" then [] else ["(" ++ h ++ ")"]
    | none => []
  let notesPart := if notes == "" then [] else ["| " ++ notes]
  joinParts (("[" ++ status_label ++ "]") :: (mid ++ helperPart ++ notesPart))

/-- Model of the module-level `WORK_TYPE_COLORS` table. -/
def WORK_TYPE_COLORS : List (String × String) :=
  [("Maintenance", "10"), ("Ad-hoc", "4"), ("Design", "3"),
   ("Office Work", "8"), ("Errands", "6")]

/-- Model of `get_color_for_work_type` with its `'10'` default. -/
def get_color_for_work_type (work_type : String) : String :=
  (WORK_TYPE_COLORS.lookup work_type).getD "10"

/-! ## Helper-name mapping -/

/-- Model of the module-level `HELPER_NAME_MAPPING` table. -/
def HELPER_NAME_MAPPING : List (String × String) :=
  [("Rorick", "Rebecca"), ("rorick", "Rebecca"), ("RORICK", "Rebecca")]

/-- One alternative of the trailing-modifier pattern
`(\s+(?:SOLO|solo)|\?|\*+)$`: whitespace followed by SOLO or solo. -/
def soloAlt (rest : List Char) : Bool :=
  let w := rest.takeWhile isWS
  !w.isEmpty && (rest.drop w.length == "SOLO".data || rest.drop w.length == "solo".data)

/-- Complete-suffix test for the trailing-modifier pattern. -/
def trailingAlt (rest : List Char) : Bool :=
  soloAlt rest || rest == ['?'] || (!rest.isEmpty && rest.all (fun c => c == '*'))

/-- Scanner behind `findTrail`: leftmost suffix matching the trailing-modifier
pattern; returns (front kept, matched modifier suffix). -/
def findTrailAux : List Char → List Char → List Char × List Char
  | acc, [] => (acc.reverse, [])
  | acc, c :: t =>
    if trailingAlt (c :: t) then (acc.reverse, c :: t)
    else findTrailAux (c :: acc) t

/-- Model of `re.search(r'(\s+(?:SOLO|solo)|\?|\*+)$', s)` followed by the
removal of the matched modifier. -/
def findTrail (s : List Char) : List Char × List Char := findTrailAux [] s

/-- Model of `re.match(r'^(\*+\s*)', r)`: split off a leading star run plus the
whitespace following it. -/
def splitLead (r : List Char) : List Char × List Char :=
  match r with
  | c :: _ =>
    if c == '*' then
      let r1 := r.dropWhile (fun d => d == '*')
      (r.takeWhile (fun d => d == '*') ++ r1.takeWhile isWS, r1.dropWhile isWS)
    else ([], r)
  | [] => ([], r)

/-- Model of `map_helper_name`: extract trailing and leading modifiers, look
the bare core name up in `HELPER_NAME_MAPPING` (exact key match, as
`dict.get` does), and reassemble prefix + name + suffix. -/
def map_helper_name (helper_name : String) : String :=
  if helper_name == "" then helper_name
  else
    let fm := findTrail helper_name.data
    let pm := splitLead fm.1
    let core_name := String.mk (trimL pm.2)
    let mapped_name := (HELPER_NAME_MAPPING.lookup core_name).getD core_name
    String.mk pm.1 ++ mapped_name ++ String.mk fm.2

/-! ## Client-name extraction and matching -/

/-- Result of `extract_client_name`: the Python function returns the plain
string `""` for a falsy summary, `(None, None)` for non-client events, and a
`(primary, fallback)` pair otherwise. -/
inductive ExtractRes where
  | emptyStr : ExtractRes
  | noClient : ExtractRes
  | named : String → String → ExtractRes
deriving DecidableEq, Repr

/-- Tail condition of `\s*([^-]+)\s*-\s*.*` applied after a `]`: the text is
nonempty, does not begin with `-`, and a `-` occurs later. -/
def restOk (s : List Char) : Bool :=
  match s with
  | [] => false
  | c :: t => c != '-' && t.any (fun d => d == '-')

/-- Backtracking scanner for `^\[.*?\]` followed by `restOk`: find the first
`]` (no newline may intervene) whose tail matches, returning that tail. -/
def bracketScan : List Char → Option (List Char)
  | [] => none
  | c :: t =>
    if c == ']' then
      if restOk t then some t else bracketScan t
    else if c == '\n' then none
    else bracketScan t

/-- Non-client keyword list of `extract_client_name`. -/
def nonClientKeywords : List (List Char) :=
  ["office".data, "errands".data, "equipment maintenance".data,
   "truck service".data, "tool".data]

/-- Separator priority list of `extract_client_name`. -/
def sepList : List Char := ['+', '(', ',', ':', ';', '-']

/-- First separator (in priority order) occurring anywhere in the text. -/
def firstSep (clean : List Char) : Option Char :=
  sepList.find? (fun sep => clean.any (fun c => c == sep))

/-- Plain-title path of `extract_client_name` (no `[...]` match): strip stars,
reject non-client keywords, cut at the first separator, then take the first
one or two whitespace tokens. -/
def extractPlain (summary : String) : ExtractRes :=
  let clean := stripStars summary.data
  if nonClientKeywords.any (fun kw => hasSub kw (lowerL clean)) then
    ExtractRes.noClient
  else
    let clean2 :=
      match firstSep clean with
      | some sep => trimL (clean.takeWhile (fun c => c != sep))
      | none => clean
    match splitWS clean2 with
    | [] => ExtractRes.named (String.mk (trimL clean2)) (String.mk (trimL clean2))
    | [w] => ExtractRes.named (String.mk w) (String.mk w)
    | w0 :: w1 :: _ => ExtractRes.named (String.mk (w0 ++ ' ' :: w1)) (String.mk w0)

/-- Model of `extract_client_name`. -/
def extract_client_name (summary : String) : ExtractRes :=
  if summary == "" then ExtractRes.emptyStr
  else
    match summary.data with
    | c :: rest =>
      if c == '[' then
        match bracketScan rest with
        | some tail =>
          let nm := String.mk (trimL (tail.takeWhile (fun d => d != '-')))
          ExtractRes.named nm nm
        | none => extractPlain summary
      else extractPlain summary
    | [] => extractPlain summary

/-- Client roster record (the fields of the per-client dict that the engine
reads). -/
structure ClientRecord where
  full_name : String
  address : String
  geo_zone : String
  maintenance_hours : String
  priority_level : String
  schedule_flexibility : String
  preferred_days : String
  preferred_time : String
  special_notes : String
deriving DecidableEq, Repr

/-- Exact-key roster lookup guarded by Python truthiness of the name. -/
def exactLookup (nm : String) (clients : List (String × ClientRecord)) :
    Option ClientRecord :=
  if nm == "" then none else clients.lookup nm

/-- Case-insensitive roster scan in insertion order, guarded by truthiness. -/
def ciLookup (nm : String) (clients : List (String × ClientRecord)) :
    Option ClientRecord :=
  if nm == "" then none
  else (clients.find? (fun kv => lowerL nm.data == lowerL kv.1.data)).map (·.2)

/-- Model of `find_matching_client`: exact lookups on primary then fallback,
then case-insensitive scans on primary then fallback. -/
def find_matching_client (summary : String) (clients : List (String × ClientRecord)) :
    Option ClientRecord :=
  if summary == "" then none
  else
    match extract_client_name summary with
    | ExtractRes.emptyStr => none
    | ExtractRes.noClient => none
    | ExtractRes.named p f =>
      match exactLookup p clients with
      | some r => some r
      | none =>
        match exactLookup f clients with
        | some r => some r
        | none =>
          match ciLookup p clients with
          | some r => some r
          | none => ciLookup f clients

/-! ## Notes extraction -/

/-- Text after the first occurrence of a keyword, modelling
`s.split(keyword, 1)[1]` when the keyword is present. -/
def dropAfterFirst (kw : List Char) : List Char → List Char
  | [] => []
  | c :: t => if leadsList kw (c :: t) then (c :: t).drop kw.length else dropAfterFirst kw t

/-- Non-client branch of `extract_notes_from_summary`: strip, remove leading
`[|\-:\s]+`, strip again. -/
def postKeywordNotes (kw : List Char) (low : List Char) : String :=
  let notes0 := trimL (dropAfterFirst kw low)
  let notes1 := notes0.dropWhile (fun c => c == '|' || c == '-' || c == ':' || isWS c)
  String.mk (trimL notes1)

/-- Model of `re.sub(r'^(maintenance|maint)\s*', '', s, flags=IGNORECASE)`:
the alternation tries the longer literal first, at the start only. -/
def stripMaintPre (l : List Char) : List Char :=
  if leadsList "maintenance".data (lowerL l) then (l.drop 11).dropWhile isWS
  else if leadsList "maint".data (lowerL l) then (l.drop 5).dropWhile isWS
  else l

/-- Model of `re.sub(r'^[\-\(\)\s]+', '', s)`. -/
def dropLeadSeps (l : List Char) : List Char :=
  l.dropWhile (fun c => c == '-' || c == '(' || c == ')' || isWS c)

/-- Cleanup pipeline applied to the remaining words in the client branch of
`extract_notes_from_summary`. -/
def notesClean (l : List Char) : List Char :=
  trimL (rstripWS (dropLeadSeps (stripMaintPre l)))

/-- Number of leading title tokens consumed as the client name (one- and
two-word client names only), by case-insensitive exact token comparison. -/
def clientStartIndex (cw words : List (List Char)) : Nat :=
  match cw with
  | [c0] =>
    match words with
    | w0 :: _ => if lowerL w0 == lowerL c0 then 1 else 0
    | [] => 0
  | [c0, c1] =>
    match words with
    | w0 :: w1 :: _ =>
      if lowerL w0 == lowerL c0 && lowerL w1 == lowerL c1 then 2
      else if lowerL w0 == lowerL c0 then 1 else 0
    | [w0] => if lowerL w0 == lowerL c0 then 1 else 0
    | [] => 0
  | _ => 0

/-- Model of `extract_notes_from_summary`. -/
def extract_notes_from_summary (summary : String) (client_name : Option String) :
    String :=
  if summary == "" then ""
  else
    let clean := stripStars summary.data
    let low := lowerL clean
    if hasSub "office work".data low then postKeywordNotes "office work".data low
    else if hasSub "errands".data low then postKeywordNotes "errands".data low
    else
      match client_name with
      | some cn =>
        if cn == "" then ""
        else
          let words := splitWS clean
          let si := clientStartIndex (splitWS cn.data) words
          if si < words.length then
            String.mk (notesClean (joinSpace (words.drop si)))
          else ""
      | none => ""

/-! ## Description builders -/

/-- Model of `' '.join(s).upper()` applied to a string: its characters
upper-cased and interleaved with spaces. -/
def spacedUpper (s : String) : String :=
  String.mk ((s.data.map upperChar).intersperse ' ')

/-- Python truthiness of an optional helper string. -/
def helperTruthy : Option String → Bool
  | some h => h != ""
  | none => false

/-- Model of `create_enhanced_description`. -/
def create_enhanced_description (client_data : ClientRecord) (service_type : String)
    (additional_details : String) (helper_info : Option String) : String :=
  let parts : List String :=
    ["CLIENT: " ++ client_data.full_name, "SERVICE: " ++ service_type, ""]
    ++ (if helperTruthy helper_info then
          ["HELPER: " ++ helper_info.getD "", ""] else [])
    ++ (if additional_details != "" then
          ["DETAILS: " ++ spacedUpper additional_details, ""] else [])
    ++ (if client_data.maintenance_hours != "" then
          ["ESTIMATED HOURS: " ++ client_data.maintenance_hours] else [])
    ++ (if client_data.priority_level != "" then
          ["PRIORITY: " ++ client_data.priority_level] else [])
    ++ (if client_data.schedule_flexibility != "" then
          ["FLEXIBILITY: " ++ client_data.schedule_flexibility] else [])
    ++ [""]
    ++ (if client_data.geo_zone != "" then
          ["ZONE: " ++ client_data.geo_zone, ""] else [])
    ++ (if client_data.special_notes != "" &&
           String.mk (trimL client_data.special_notes.data) != "" then
          ["NOTES: " ++ client_data.special_notes, ""] else [])
    ++ (if client_data.preferred_days != "" then
          ["PREFERRED DAYS: " ++ client_data.preferred_days] else [])
    ++ (if client_data.preferred_time != "" then
          ["PREFERRED TIME: " ++ client_data.preferred_time] else [])
  String.intercalate "\n" parts

/-- Model of `create_non_client_description`. -/
def create_non_client_description (work_type : String) (notes : String)
    (helper_info : Option String) : String :=
  let parts : List String :=
    ["WORK TYPE: " ++ work_type]
    ++ (if helperTruthy helper_info then ["HELPER: " ++ helper_info.getD ""] else [])
    ++ (if notes != "" then ["DETAILS: " ++ notes] else [])
  String.intercalate "\n" parts

/-! ## Events, dates and the helper schedule -/

/-- Calendar instant: the `%Y-%m-%d` rendering and the timestamp in seconds.
The `strftime` call of `get_helper_for_date` is modelled as the `dateStr`
projection. -/
structure DT where
  dateStr : String
  ts : Int
deriving DecidableEq, Repr

/-- Start marker of a raw event: a date-only start (all-day event) or a parsed
dateTime. An event whose start carries both fields behaves as timed in every
check the engine makes, so it is modelled as `timed`. -/
inductive EventStart where
  | dateOnly : String → EventStart
  | timed : DT → EventStart
deriving DecidableEq, Repr

/-- Raw calendar event, restricted to the fields the engine reads. A missing
summary is the empty string (`event.get('summary', '')`); `start = none`
models a missing or unusable start marker. -/
structure RawEvent where
  id : String
  summary : String
  start : Option EventStart
deriving DecidableEq, Repr

/-- Model of `parse_event_date`. For a date-only start Python builds the
midnight datetime of that date; its timestamp is abstracted as 0 here, and the
engine never consults it (all-day events are skipped before this call). A
missing start marker falls through to `datetime.now()`, modelled by `now`
(the same instant as the run's reference date). -/
def parse_event_date (now : DT) (e : RawEvent) : DT :=
  match e.start with
  | some (EventStart.timed dt) => dt
  | some (EventStart.dateOnly d) => ⟨d, 0⟩
  | none => now

/-- Skip-keyword list of `extract_helper_info_from_events`. -/
def helperSkipKeywords : List (List Char) :=
  ["office".data, "design".data, "invoices".data, "sched".data,
   "comms".data, "pdxn".data, "shop".data]

/-- One step of the helper-schedule fold: record a qualifying all-day event's
date against its stripped summary, overwriting any earlier entry. -/
def helperStep (m : String → Option String) (e : RawEvent) : String → Option String :=
  match e.start with
  | some (EventStart.dateOnly d) =>
    let s := String.mk (trimL e.summary.data)
    if s != "" &&
       !(helperSkipKeywords.any (fun kw => hasSub kw (lowerL s.data))) &&
       decide ((splitWS s.data).length ≤ 3) then
      fun k => if k == d then some s else m k
    else m
  | _ => m

/-- Model of `extract_helper_info_from_events`: the date-to-helper mapping as
a function (Python dict), built left to right. -/
def extract_helper_info_from_events (events : List RawEvent) : String → Option String :=
  events.foldl helperStep (fun _ => none)

/-- Model of `get_helper_for_date`. -/
def get_helper_for_date (event_date : DT) (sched : String → Option String) :
    Option String :=
  sched event_date.dateStr

/-! ## The enhancement engine -/

/-- Output value object of one update: the fields written back to the event. -/
structure EventUpdate where
  summary : String
  colorId : String
  description : String
  location : Option String
deriving DecidableEq, Repr

/-- Terminal outcome of processing one event. -/
inductive Outcome where
  | skippedAllDay : Outcome
  | skippedNoSummary : Outcome
  | alreadySkip : Outcome
  | skippedFiltered : Outcome
  | skippedNoMatch : Outcome
  | update : EventUpdate → Outcome
deriving DecidableEq, Repr

/-- Per-event result: the outcome plus whether the event was counted in the
already-processed tally (which happens even under force-reprocess). -/
structure StepRes where
  outcome : Outcome
  countedAlready : Bool
deriving DecidableEq, Repr

/-- Client-type work types: these require a roster match. -/
def isClientWorkType (wt : String) : Bool :=
  wt == "Maintenance" || wt == "Ad-hoc" || wt == "Design"

/-- All-day test of the engine loop: date-only start and no dateTime. -/
def isAllDay (e : RawEvent) : Bool :=
  match e.start with
  | some (EventStart.dateOnly _) => true
  | _ => false

/-- Model of the body of the `enhance_calendar_events` loop for one event. -/
def processEvent (force : Bool) (clients : List (String × ClientRecord))
    (sched : String → Option String) (now : DT) (e : RawEvent) : StepRes :=
  if isAllDay e then ⟨Outcome.skippedAllDay, false⟩
  else if e.summary == "" then ⟨Outcome.skippedNoSummary, false⟩
  else
    let alreadyB := is_already_processed e.summary
    if alreadyB && !force then ⟨Outcome.alreadySkip, true⟩
    else if should_skip_event e.summary then ⟨Outcome.skippedFiltered, alreadyB⟩
    else
      let work_type := determine_work_type e.summary
      let client_data := find_matching_client e.summary clients
      if isClientWorkType work_type && client_data.isNone then
        ⟨Outcome.skippedNoMatch, alreadyB⟩
      else
        let event_date := parse_event_date now e
        let helper_info := (get_helper_for_date event_date sched).map map_helper_name
        let client_name := client_data.map (fun c => c.full_name)
        let notes := extract_notes_from_summary e.summary client_name
        let st := determine_status e.summary event_date.ts now.ts
        let new_title :=
          create_standardized_title st.2 client_name work_type helper_info notes
        let color_id := get_color_for_work_type work_type
        let desc :=
          match client_data with
          | some cd => create_enhanced_description cd work_type notes helper_info
          | none => create_non_client_description work_type notes helper_info
        ⟨Outcome.update ⟨new_title, color_id, desc, client_data.map (fun c => c.address)⟩,
         alreadyB⟩

/-- Run counters of the engine (the purely computed part of the summary). -/
structure Tally where
  filtered : Nat
  noMatch : Nat
  already : Nat
  toUpdate : Nat
deriving DecidableEq, Repr

/-- Tally increment for one processed event. -/
def bumpTally (r : StepRes) (t : Tally) : Tally :=
  let t1 := if r.countedAlready then { t with already := t.already + 1 } else t
  match r.outcome with
  | Outcome.skippedFiltered => { t1 with filtered := t1.filtered + 1 }
  | Outcome.skippedNoMatch => { t1 with noMatch := t1.noMatch + 1 }
  | Outcome.update _ => { t1 with toUpdate := t1.toUpdate + 1 }
  | _ => t1

/-- Result of a run: per-event outcomes, the mutating `update_event` calls
actually issued, and the tally. -/
structure RunResult where
  outcomes : List (String × StepRes)
  applied : List (String × EventUpdate)
  tally : Tally
deriving DecidableEq, Repr

/-- The engine loop over the event list. In dry-run mode the update payload is
still computed but no mutating call is recorded. -/
def runLoop (dry force : Bool) (clients : List (String × ClientRecord))
    (sched : String → Option String) (now : DT) : List RawEvent → RunResult
  | [] => ⟨[], [], ⟨0, 0, 0, 0⟩⟩
  | e :: es =>
    let r := processEvent force clients sched now e
    let rest := runLoop dry force clients sched now es
    { outcomes := (e.id, r) :: rest.outcomes
      applied :=
        match r.outcome with
        | Outcome.update u => if dry then rest.applied else (e.id, u) :: rest.applied
        | _ => rest.applied
      tally := bumpTally r rest.tally }

/-- Model of `enhance_calendar_events`: build the helper schedule from the
event list, then process every event. -/
def enhance (dry force : Bool) (clients : List (String × ClientRecord)) (now : DT)
    (events : List RawEvent) : RunResult :=
  runLoop dry force clients (extract_helper_info_from_events events) now events

/-- Apply the emitted updates back to the event list (the effect of the
`update_event` calls on the fields the engine reads: the summary). -/
def applyUpdates (events : List RawEvent) (apps : List (String × EventUpdate)) :
    List RawEvent :=
  events.map (fun e =>
    match apps.lookup e.id with
    | some u => { e with summary := u.summary }
    | none => e)

/-! ## Auxiliary specification-level definitions -/

/-- Shape of a leading helper-name modifier: a nonempty run of `*` followed by
whitespace only (the text captured by `^(\*+\s*)`). -/
def leadingModShape (pre : List Char) : Bool :=
  !(pre.takeWhile (fun c => c == '*')).isEmpty &&
  (pre.dropWhile (fun c => c == '*')).all isWS

/-- Modelled from the spec: the claimed NotesExtractor behaviour "strip a
following maintenance/maint token" with token (word-boundary) semantics —
the leading whitespace-delimited token is removed only when it is exactly
"maintenance" or "maint" (case-insensitive). The code instead strips these as
prefixes of the first token. -/
def stripMaintTokenSpec (l : List Char) : List Char :=
  match splitWS l with
  | t :: rest =>
    if lowerL t == "maintenance".data || lowerL t == "maint".data then joinSpace rest
    else l
  | [] => l

/-- Condition under which the engine emits an update for an event: not
all-day, nonempty title, not (already processed without force), not filtered,
and not a client-type work type lacking a roster match. -/
def emits (force : Bool) (clients : List (String × ClientRecord)) (e : RawEvent) :
    Bool :=
  !(isAllDay e) && !(e.summary == "") &&
  !(is_already_processed e.summary && !force) &&
  !(should_skip_event e.summary) &&
  !(isClientWorkType (determine_work_type e.summary) &&
    (find_matching_client e.summary clients).isNone)

/-! ## General lemmas about the string primitives -/

theorem leadsList_iff (p l : List Char) : leadsList p l = true ↔ p <+: l := by
  induction p generalizing l with
  | nil => simp [leadsList]
  | cons a as ih =>
    cases l with
    | nil => simp [leadsList]
    | cons b bs => simp [leadsList, List.cons_prefix_cons, ih, And.comm]

theorem hasSub_iff (p l : List Char) : hasSub p l = true ↔ p <:+: l := by
  induction l with
  | nil => simp [hasSub, List.infix_nil, List.isEmpty_iff]
  | cons c t ih => simp [hasSub, leadsList_iff, ih, List.infix_cons_iff]

theorem hasSub_of_infix {p m : List Char} (h : p <:+: m) (a b : List Char) :
    hasSub p (a ++ (m ++ b)) = true := by
  rw [hasSub_iff]
  exact h.trans ⟨a, b, by simp⟩

theorem takeWhile_append_all {p : Char → Bool} {xs : List Char} (ys : List Char)
    (h : ∀ c ∈ xs, p c = true) :
    (xs ++ ys).takeWhile p = xs ++ ys.takeWhile p := by
  induction xs with
  | nil => simp
  | cons a as ih =>
    have ha := h a (by simp)
    have ih2 := ih (fun c hc => h c (by simp [hc]))
    simp [List.takeWhile_cons, ha, ih2]

theorem dropWhile_head_neg {p : Char → Bool} {l : List Char} (c : Char)
    (hc : p c = false) : (c :: l).dropWhile p = c :: l := by
  simp [List.dropWhile_cons, hc]

theorem trimL_pad {k : List Char} (hne : k ≠ [])
    (hh : k.head?.all (fun c => !isWS c) = true)
    (hl : k.getLast?.all (fun c => !isWS c) = true) :
    trimL (' ' :: (k ++ [' '])) = k := by
  cases k with
  | nil => exact absurd rfl hne
  | cons c0 k0 =>
    have hc0 : isWS c0 = false := by
      simp [Option.all] at hh
      simpa using hh
    have hlast : isWS ((c0 :: k0).getLast (by simp)) = false := by
      have := List.getLast?_eq_getLast (c0 :: k0) (by simp)
      rw [this] at hl
      simpa using hl
    unfold trimL
    have h1 : (' ' :: (c0 :: k0 ++ [' '])).dropWhile isWS = c0 :: k0 ++ [' '] := by
      rw [List.dropWhile_cons]
      simp only [show isWS ' ' = true from rfl, if_true]
      exact dropWhile_head_neg c0 hc0
    rw [h1]
    have h2 : (c0 :: k0 ++ [' ']).reverse = ' ' :: (c0 :: k0).reverse := by simp
    rw [h2]
    have h3 : (' ' :: (c0 :: k0).reverse).dropWhile isWS = (c0 :: k0).reverse := by
      rw [List.dropWhile_cons]
      simp only [show isWS ' ' = true from rfl, if_true]
      cases hr : (c0 :: k0).reverse with
      | nil => simp at hr
      | cons d ds =>
        have hd : d = (c0 :: k0).getLast (by simp) := by
          have := List.head?_reverse (c0 :: k0)
          rw [hr] at this
          have hg := List.getLast?_eq_getLast (c0 :: k0) (by simp)
          rw [hg] at this
          simpa using this
        exact dropWhile_head_neg d (by rw [hd]; exact hlast)
    rw [h3, List.reverse_reverse]

theorem lookup_eq_of_mem {β : Type} {l : List (String × β)} {k : String} {v : β}
    (hnd : (l.map Prod.fst).Nodup) (hm : (k, v) ∈ l) : l.lookup k = some v := by
  induction l with
  | nil => cases hm
  | cons kv rest ih =>
    rcases List.mem_cons.mp hm with heq | hmem
    · rw [← heq]
      simp [List.lookup]
    · have hk : k ≠ kv.1 := by
        intro hkk
        have : kv.1 ∈ rest.map Prod.fst := by
          rw [← hkk]
          exact List.mem_map.mpr ⟨(k, v), hmem, rfl⟩
        exact (List.nodup_cons.mp hnd).1 this
      have : (k == kv.1) = false := by simpa using hk
      cases kv with
      | mk k1 v1 =>
        simp only [List.lookup]
        rw [this]
        exact ih (List.nodup_cons.mp hnd).2 hmem

theorem mem_of_lookup_eq_some {β : Type} {l : List (String × β)} {k : String} {v : β}
    (h : l.lookup k = some v) : (k, v) ∈ l := by
  induction l with
  | nil => simp [List.lookup] at h
  | cons kv rest ih =>
    cases kv with
    | mk k1 v1 =>
      simp only [List.lookup] at h
      by_cases hk : (k == k1) = true
      · rw [hk] at h
        simp only [Option.some.injEq] at h
        have : k = k1 := by simpa using hk
        subst this; subst h
        exact List.mem_cons_self _ _
      · rw [Bool.not_eq_true] at hk
        rw [hk] at h
        exact List.mem_cons_of_mem _ (ih h)

theorem lookup_isSome_of_mem {β : Type} {l : List (String × β)} {k : String} {v : β}
    (hm : (k, v) ∈ l) : (l.lookup k).isSome = true := by
  induction l with
  | nil => cases hm
  | cons kv rest ih =>
    cases kv with
    | mk k1 v1 =>
      rcases List.mem_cons.mp hm with heq | hmem
      · cases heq
        simp [List.lookup]
      · simp only [List.lookup]
        by_cases hk : (k == k1) = true
        · simp [hk]
        · rw [Bool.not_eq_true] at hk
          rw [hk]
          exact ih hmem

theorem dropWhile_append_all {p : Char → Bool} {xs : List Char} (ys : List Char)
    (h : ∀ c ∈ xs, p c = true) : (xs ++ ys).dropWhile p = ys.dropWhile p := by
  induction xs with
  | nil => simp
  | cons a as ih =>
    have ha := h a (by simp)
    have ih2 := ih (fun c hc => h c (by simp [hc]))
    simp [List.dropWhile_cons, ha, ih2]

theorem ws_ne_star {c : Char} (h : isWS c = true) : (c == '*') = false := by
  simp only [isWS, Bool.or_eq_true, decide_eq_true_eq] at h
  rcases h with ((((h | h) | h) | h) | h) | h <;> subst h <;> decide

theorem mem_takeWhile_pred {p : Char → Bool} {l : List Char} {x : Char}
    (hx : x ∈ l.takeWhile p) : p x = true :=
  List.mem_takeWhile_imp hx

/-! ## Claims about the helper-name mapper (C6) -/

theorem findTrailAux_split (rest : List Char) : ∀ acc : List Char,
    (findTrailAux acc rest).1 ++ (findTrailAux acc rest).2 = acc.reverse ++ rest ∧
    ((findTrailAux acc rest).2 = [] ∨ trailingAlt (findTrailAux acc rest).2 = true) := by
  induction rest with
  | nil => intro acc; simp [findTrailAux]
  | cons c t ih =>
    intro acc
    cases h : trailingAlt (c :: t) with
    | true => simp [findTrailAux, h]
    | false =>
      have heq : findTrailAux acc (c :: t) = findTrailAux (c :: acc) t := by
        simp [findTrailAux, h]
      have h2 := ih (c :: acc)
      constructor
      · rw [heq, h2.1]
        simp
      · rw [heq]
        exact h2.2

theorem splitLead_split (r : List Char) :
    (splitLead r).1 ++ (splitLead r).2 = r ∧
    ((splitLead r).1 = [] ∨ leadingModShape (splitLead r).1 = true) := by
  cases r with
  | nil => simp [splitLead]
  | cons c t =>
    by_cases h : (c == '*') = true
    · have hsl : splitLead (c :: t) =
          ((c :: t).takeWhile (fun d => d == '*') ++
             ((c :: t).dropWhile (fun d => d == '*')).takeWhile isWS,
           ((c :: t).dropWhile (fun d => d == '*')).dropWhile isWS) := by
        simp [splitLead, h]
      constructor
      · rw [hsl]
        show (_ ++ _) ++ _ = c :: t
        rw [List.append_assoc,
            List.takeWhile_append_dropWhile isWS ((c :: t).dropWhile (fun d => d == '*')),
            List.takeWhile_append_dropWhile (fun d => d == '*') (c :: t)]
      · right
        rw [hsl]
        have hA : ∀ x ∈ (c :: t).takeWhile (fun d => d == '*'),
            (fun d => d == '*') x = true :=
          fun x hx => @mem_takeWhile_pred (fun d => d == '*') (c :: t) x hx
        have hB : ∀ x ∈ ((c :: t).dropWhile (fun d => d == '*')).takeWhile isWS,
            isWS x = true := fun x hx => mem_takeWhile_pred hx
        have htw : ((c :: t).takeWhile (fun d => d == '*') ++
            ((c :: t).dropWhile (fun d => d == '*')).takeWhile isWS).takeWhile
              (fun d => d == '*') =
            (c :: t).takeWhile (fun d => d == '*') ++
            (((c :: t).dropWhile (fun d => d == '*')).takeWhile isWS).takeWhile
              (fun d => d == '*') :=
          takeWhile_append_all _ hA
        have htw2 : (((c :: t).dropWhile (fun d => d == '*')).takeWhile isWS).takeWhile
            (fun d => d == '*') = [] := by
          cases hc : ((c :: t).dropWhile (fun d => d == '*')).takeWhile isWS with
          | nil => rfl
          | cons b bs =>
            have hbws : isWS b = true := hB b (by rw [hc]; simp)
            simp [List.takeWhile_cons, ws_ne_star hbws]
        have hdw : ((c :: t).takeWhile (fun d => d == '*') ++
            ((c :: t).dropWhile (fun d => d == '*')).takeWhile isWS).dropWhile
              (fun d => d == '*') =
            ((c :: t).dropWhile (fun d => d == '*')).takeWhile isWS := by
          rw [dropWhile_append_all _ hA]
          cases hc : ((c :: t).dropWhile (fun d => d == '*')).takeWhile isWS with
          | nil => rfl
          | cons b bs =>
            have hbws : isWS b = true := hB b (by rw [hc]; simp)
            simp [List.dropWhile_cons, ws_ne_star hbws]
        unfold leadingModShape
        rw [htw, htw2, hdw, Bool.and_eq_true]
        refine ⟨?_, List.all_eq_true.mpr hB⟩
        simp [List.takeWhile_cons, h]
    · have hb : (c == '*') = false := by simpa using h
      simp [splitLead, hb]

/-- Claim C6 (amended). `map_helper_name` decomposes every helper descriptor
into a leading modifier (a star run plus optional whitespace, or empty), a
core segment, and a trailing modifier (whitespace plus SOLO/solo, a `?`, or a
star run, or empty), substitutes the stripped core through
`HELPER_NAME_MAPPING` by exact key lookup — the table enumerates the three
casings Rorick/rorick/RORICK — and reassembles prefix + name + suffix, so
modifiers are never lost or duplicated; in particular "Rorick SOLO" maps to
"Rebecca SOLO". (The lookup is not case-insensitive: unlisted casings pass
through unchanged.) -/
theorem map_helper_name_modifiers (s : String) :
    (∃ pre mid suf : List Char,
      s.data = pre ++ mid ++ suf ∧
      (map_helper_name s).data =
        pre ++ (((HELPER_NAME_MAPPING.lookup (String.mk (trimL mid))).getD
                   (String.mk (trimL mid))).data) ++ suf ∧
      (pre = [] ∨ leadingModShape pre = true) ∧
      (suf = [] ∨ trailingAlt suf = true)) ∧
    map_helper_name "Rorick SOLO" = "Rebecca SOLO" := by
  constructor
  · by_cases hs : s = ""
    · subst hs
      exact ⟨[], [], [], rfl, by decide, Or.inl rfl, Or.inl rfl⟩
    · have hb : (s == "") = false := by simpa using hs
      obtain ⟨hsplit, hshape⟩ := findTrailAux_split s.data []
      obtain ⟨hsplit2, hshape2⟩ := splitLead_split (findTrail s.data).1
      refine ⟨(splitLead (findTrail s.data).1).1, (splitLead (findTrail s.data).1).2,
              (findTrail s.data).2, ?_, ?_, hshape2, ?_⟩
      · rw [List.append_assoc, ← List.append_assoc _ _ ((findTrail s.data).2)]
        rw [hsplit2]
        simpa [findTrail] using hsplit.symm
      · simp [map_helper_name, hb, String.data_append]
      · simpa [findTrail] using hshape
  · decide

/-- Claim C6 counterexample: the claimed case-insensitive key lookup fails on
the casing "RoRick": it lower-cases equal to the table key "Rorick", so a
case-insensitive NameMapper would return "Rebecca", but the code's exact
lookup passes it through unchanged. -/
theorem map_helper_name_case_counterexample :
    map_helper_name "RoRick" = "RoRick" ∧
    lowerL "RoRick".data = lowerL "Rorick".data ∧
    ("RoRick" : String) ≠ "Rebecca" := by
  refine ⟨by decide, by decide, by decide⟩

/-! ## Claims about the helper schedule (C8) -/

/-- Claim C8 (amended). Extending the event list by one event updates the date
map as follows: a date-only event whose whitespace-stripped title is nonempty,
matches no skip keyword, and has at most 3 whitespace tokens overwrites the
entry for its date with that stripped title (last write wins); every other
event leaves the map unchanged. The map stores the stripped title, not the
raw title verbatim. -/
theorem helper_schedule_last_write (evs : List RawEvent) (e : RawEvent) (d : String) :
    extract_helper_info_from_events (evs ++ [e]) d =
      (match e.start with
       | some (EventStart.dateOnly dd) =>
         if String.mk (trimL e.summary.data) != "" &&
            !(helperSkipKeywords.any fun kw =>
                hasSub kw (lowerL (String.mk (trimL e.summary.data)).data)) &&
            decide ((splitWS (String.mk (trimL e.summary.data)).data).length ≤ 3) then
           (if d == dd then some (String.mk (trimL e.summary.data))
            else extract_helper_info_from_events evs d)
         else extract_helper_info_from_events evs d
       | _ => extract_helper_info_from_events evs d) := by
  obtain ⟨eid, esum, est⟩ := e
  unfold extract_helper_info_from_events
  rw [List.foldl_append]
  cases est with
  | none => rfl
  | some st =>
    cases st with
    | dateOnly dd =>
      simp only [List.foldl_cons, List.foldl_nil, helperStep, ite_apply]
    | timed dt => rfl

/-- Claim C8 counterexample: a qualifying all-day event titled " Anne " is
recorded as the stripped "Anne", not verbatim. -/
theorem helper_schedule_verbatim_counterexample :
    extract_helper_info_from_events
        [⟨"i1", " Anne ", some (EventStart.dateOnly "2025-06-10")⟩] "2025-06-10" =
      some "Anne" ∧
    some (" Anne " : String) ≠ some ("Anne" : String) := by
  refine ⟨by decide, by decide⟩

/-! ## Claim C3: status mapping -/

/-- Claim C3 (amended). Star-count 0 always yields (confirmed, C); star-count
at least 2 always yields (planning, P); star-count exactly 1 yields
(confirmed, C) exactly when the floored day difference
`(event_date - reference_date).days` has absolute value at most 14 — that is,
when the event lies in the half-open window from 14 days before to 15 days
after the reference instant — and (tentative, T) otherwise. The original
claim's symmetric "absolute difference at most 14 days" reading fails on
fractional forward differences because Python's `timedelta.days` floors. -/
theorem determine_status_star_mapping (s : String) (e r : Int) :
    (count_stars_in_summary s = 0 → determine_status s e r = ("confirmed", "C")) ∧
    (count_stars_in_summary s = 1 →
      ((determine_status s e r = ("confirmed", "C") ↔
        -14 * 86400 ≤ e - r ∧ e - r < 15 * 86400) ∧
       (determine_status s e r = ("confirmed", "C") ∨
        determine_status s e r = ("tentative", "T")))) ∧
    (2 ≤ count_stars_in_summary s → determine_status s e r = ("planning", "P")) := by
  refine ⟨fun h0 => by simp [determine_status, h0], fun h1 => ?_, fun h2 => ?_⟩
  · have hd : Int.fdiv (e - r) 86400 = (e - r) / 86400 :=
      Int.fdiv_eq_ediv _ (by norm_num)
    constructor
    · constructor
      · intro hc
        by_contra hb
        have : ¬ (Int.fdiv (e - r) 86400).natAbs ≤ 14 := by
          rw [hd]
          omega
        simp [determine_status, h1, this] at hc
      · intro hb
        have : (Int.fdiv (e - r) 86400).natAbs ≤ 14 := by
          rw [hd]
          omega
        simp [determine_status, h1, this]
    · by_cases hab : (Int.fdiv (e - r) 86400).natAbs ≤ 14
      · left; simp [determine_status, h1, hab]
      · right; simp [determine_status, h1, hab]
  · have h0 : ¬ count_stars_in_summary s = 0 := by omega
    have h1 : ¬ count_stars_in_summary s = 1 := by omega
    simp [determine_status, h0, h1]

/-- Claim C3 witness: a two-star title is labelled P at a concrete date pair. -/
theorem determine_status_star_mapping_witness :
    determine_status "**prune" 1000000 0 = ("planning", "P") :=
  (determine_status_star_mapping "**prune" 1000000 0).2.2 (by decide)

/-- Claim C3 counterexample: a one-star event 14 days and one hour after the
reference instant has absolute date difference strictly greater than 14 days
(1213200 > 1209600 seconds), so the claim as stated requires (tentative, T),
but the code floors the day difference to 14 and returns (confirmed, C). -/
theorem determine_status_fractional_day_counterexample :
    determine_status "*x" (14 * 86400 + 3600) 0 = ("confirmed", "C") ∧
    ((14 * 86400 + 3600 : Int) - 0 > 14 * 86400 ∧
     ("confirmed", "C") ≠ ("tentative", "T")) := by
  refine ⟨by decide, by decide, by decide⟩

/-! ## Claim C4: classifier precedence and totality -/

/-- Claim C4: `determine_work_type` is total over the five categories and
evaluates its keyword tests in the fixed precedence Design, Office Work,
Errands, Ad-hoc, with Maintenance as default; "plan"/"planning" are matched
at word boundaries only, so "planting" classifies as Maintenance; and a title
containing both "design" and "office" classifies as Design. -/
theorem determine_work_type_precedence (s : String) :
    (determine_work_type s = "Maintenance" ∨ determine_work_type s = "Design" ∨
     determine_work_type s = "Office Work" ∨ determine_work_type s = "Errands" ∨
     determine_work_type s = "Ad-hoc") ∧
    (designHit (cleanLower s) = true → determine_work_type s = "Design") ∧
    (designHit (cleanLower s) = false → officeHit (cleanLower s) = true →
      determine_work_type s = "Office Work") ∧
    (designHit (cleanLower s) = false → officeHit (cleanLower s) = false →
      errandsHit (cleanLower s) = true → determine_work_type s = "Errands") ∧
    (designHit (cleanLower s) = false → officeHit (cleanLower s) = false →
      errandsHit (cleanLower s) = false → adhocHit (cleanLower s) = true →
      determine_work_type s = "Ad-hoc") ∧
    (designHit (cleanLower s) = false → officeHit (cleanLower s) = false →
      errandsHit (cleanLower s) = false → adhocHit (cleanLower s) = false →
      determine_work_type s = "Maintenance") ∧
    (hasSub "design".data (cleanLower s) = true →
     hasSub "office".data (cleanLower s) = true →
     determine_work_type s = "Design") ∧
    determine_work_type "planting" = "Maintenance" := by
  by_cases hs : s = ""
  · subst hs
    exact ⟨Or.inl rfl, by decide, by decide, by decide, by decide,
           fun _ _ _ _ => rfl, by decide, by decide⟩
  · have hb : (s == "") = false := by simpa using hs
    have he : determine_work_type s =
        (if designHit (cleanLower s) then "Design"
         else if officeHit (cleanLower s) then "Office Work"
         else if errandsHit (cleanLower s) then "Errands"
         else if adhocHit (cleanLower s) then "Ad-hoc"
         else "Maintenance") := by
      simp [determine_work_type, hb]
    refine ⟨?_, ?_, ?_, ?_, ?_, ?_, ?_, by decide⟩
    · cases h1 : designHit (cleanLower s) <;>
      cases h2 : officeHit (cleanLower s) <;>
      cases h3 : errandsHit (cleanLower s) <;>
      cases h4 : adhocHit (cleanLower s) <;>
      simp [he, h1, h2, h3, h4]
    · intro h1; simp [he, h1]
    · intro h1 h2; simp [he, h1, h2]
    · intro h1 h2 h3; simp [he, h1, h2, h3]
    · intro h1 h2 h3 h4; simp [he, h1, h2, h3, h4]
    · intro h1 h2 h3 h4; simp [he, h1, h2, h3, h4]
    · intro hd ho
      have h1 : designHit (cleanLower s) = true := by simp [designHit, hd]
      simp [he, h1]

/-- Claim C4 witness: a title containing both "design" and "office" keywords
classifies as Design by precedence. -/
theorem determine_work_type_precedence_witness :
    determine_work_type "design office admin" = "Design" :=
  (determine_work_type_precedence "design office admin").2.2.2.2.2.2.1
    (by decide) (by decide)

/-! ## Title shape lemmas -/

theorem joinParts_head (x : String) (ps : List String) :
    ∃ t : String, joinParts (x :: ps) = x ++ t := by
  cases ps with
  | nil => exact ⟨"", by simp [joinParts, String.append_empty]⟩
  | cons q r =>
    exact ⟨" " ++ joinParts (q :: r), by simp [joinParts, String.append_assoc]⟩

theorem title_decomp (label : String) (c : Option String) (wt : String)
    (hp : Option String) (n : String) :
    ∃ t : String, create_standardized_title label c wt hp n =
      ("[" ++ label ++ "]") ++ t := by
  unfold create_standardized_title
  exact joinParts_head _ _

theorem stars_zero_of_bracketed {s : String} (h : is_already_processed s = true) :
    count_stars_in_summary s = 0 := by
  unfold is_already_processed at h
  unfold count_stars_in_summary
  cases hd : s.data with
  | nil => rw [hd] at h; simp at h
  | cons c rest =>
    rw [hd] at h
    rw [Bool.and_eq_true] at h
    have hc : c = '[' := by simpa using h.1
    subst hc
    simp [List.takeWhile_cons, show ('[' == '*') = false from rfl]

theorem status_C_of_bracketed {s : String} (e r : Int)
    (h : is_already_processed s = true) :
    determine_status s e r = ("confirmed", "C") := by
  simp [determine_status, stars_zero_of_bracketed h]

theorem status_label_cases (s : String) (a b : Int) :
    (determine_status s a b).2 = "C" ∨ (determine_status s a b).2 = "T" ∨
    (determine_status s a b).2 = "P" := by
  unfold determine_status
  by_cases h0 : count_stars_in_summary s = 0
  · simp [h0]
  · by_cases h1 : count_stars_in_summary s = 1
    · by_cases hab : (Int.fdiv (a - b) 86400).natAbs ≤ 14 <;> simp [h0, h1, hab]
    · simp [h0, h1]

theorem bracketed_of_label {label : String}
    (hl : label = "C" ∨ label = "T" ∨ label = "P") (c : Option String) (wt : String)
    (hp : Option String) (n : String) :
    is_already_processed (create_standardized_title label c wt hp n) = true := by
  obtain ⟨t, ht⟩ := title_decomp label c wt hp n
  rw [ht]
  rcases hl with rfl | rfl | rfl <;> rfl

/-! ## Claim C7: the NotesExtractor client path -/

/-- Claim C7 (amended). For a nonempty title whose star-stripped text contains
neither "office work" nor "errands" (case-insensitively),
`extract_notes_from_summary` consumes the client's first one or two tokens
from the front of the cleaned text by case-insensitive exact token match —
for a one-token client name, its token when it matches the first title
token; for a two-token client name, both tokens when both match, otherwise
the first token alone when it matches — and returns the remaining tokens
rejoined with single spaces, cleaned by: stripping a leading
"maintenance"/"maint" prefix (case-insensitive, longest literal first, not
at a token boundary) with its following whitespace, stripping leading
separator punctuation (hyphens, parentheses, whitespace), and trimming
trailing whitespace — trailing and embedded parentheses in the remainder
are preserved. -/
theorem notes_client_path :
    (∀ (summary cn : String) (w w0 : List Char) (rest : List (List Char)),
      summary ≠ "" →
      hasSub "office work".data (lowerL (stripStars summary.data)) = false →
      hasSub "errands".data (lowerL (stripStars summary.data)) = false →
      splitWS cn.data = [w] →
      splitWS (stripStars summary.data) = w0 :: rest →
      lowerL w0 = lowerL w →
      extract_notes_from_summary summary (some cn) =
        String.mk (notesClean (joinSpace rest))) ∧
    (∀ (summary cn : String) (w1 w2 w0 w0' : List Char) (rest : List (List Char)),
      summary ≠ "" →
      hasSub "office work".data (lowerL (stripStars summary.data)) = false →
      hasSub "errands".data (lowerL (stripStars summary.data)) = false →
      splitWS cn.data = [w1, w2] →
      splitWS (stripStars summary.data) = w0 :: w0' :: rest →
      lowerL w0 = lowerL w1 →
      lowerL w0' = lowerL w2 →
      extract_notes_from_summary summary (some cn) =
        String.mk (notesClean (joinSpace rest))) ∧
    (∀ (summary cn : String) (w1 w2 w0 w0' : List Char) (rest : List (List Char)),
      summary ≠ "" →
      hasSub "office work".data (lowerL (stripStars summary.data)) = false →
      hasSub "errands".data (lowerL (stripStars summary.data)) = false →
      splitWS cn.data = [w1, w2] →
      splitWS (stripStars summary.data) = w0 :: w0' :: rest →
      lowerL w0 = lowerL w1 →
      lowerL w0' ≠ lowerL w2 →
      extract_notes_from_summary summary (some cn) =
        String.mk (notesClean (joinSpace (w0' :: rest)))) ∧
    (∀ (summary cn : String) (w1 w2 w0 : List Char),
      summary ≠ "" →
      hasSub "office work".data (lowerL (stripStars summary.data)) = false →
      hasSub "errands".data (lowerL (stripStars summary.data)) = false →
      splitWS cn.data = [w1, w2] →
      splitWS (stripStars summary.data) = [w0] →
      lowerL w0 = lowerL w1 →
      extract_notes_from_summary summary (some cn) = "") ∧
    extract_notes_from_summary "Thomas pruning (back)" (some "Thomas") =
      "pruning (back)" := by
  refine ⟨?_, ?_, ?_, ?_, by decide⟩
  · intro summary cn w w0 rest h0 h1 h2 h3 h4 h5
    have hb : (summary == "") = false := by simpa using h0
    have hcn : (cn == "") = false := by
      by_cases hc : cn = ""
      · subst hc; simp [splitWS, splitWSAux] at h3
      · simpa using hc
    simp only [extract_notes_from_summary, hb, Bool.false_eq_true, if_false, h1, h2,
      hcn, h4]
    cases rest with
    | nil =>
      have hsi : clientStartIndex (splitWS cn.data) [w0] = 1 := by
        rw [h3]; simp [clientStartIndex, h5]
      simp [hsi]
      decide
    | cons r0 rs =>
      have hsi : clientStartIndex (splitWS cn.data) (w0 :: r0 :: rs) = 1 := by
        rw [h3]; simp [clientStartIndex, h5]
      simp [hsi]
  · intro summary cn w1 w2 w0 w0' rest h0 h1 h2 h3 h4 h5 h6
    have hb : (summary == "") = false := by simpa using h0
    have hcn : (cn == "") = false := by
      by_cases hc : cn = ""
      · subst hc; simp [splitWS, splitWSAux] at h3
      · simpa using hc
    simp only [extract_notes_from_summary, hb, Bool.false_eq_true, if_false, h1, h2,
      hcn, h4]
    cases rest with
    | nil =>
      have hsi : clientStartIndex (splitWS cn.data) [w0, w0'] = 2 := by
        rw [h3]; simp [clientStartIndex, h5, h6]
      simp [hsi]
      decide
    | cons r0 rs =>
      have hsi : clientStartIndex (splitWS cn.data) (w0 :: w0' :: r0 :: rs) = 2 := by
        rw [h3]; simp [clientStartIndex, h5, h6]
      simp [hsi]
  · intro summary cn w1 w2 w0 w0' rest h0 h1 h2 h3 h4 h5 h6
    have hb : (summary == "") = false := by simpa using h0
    have hcn : (cn == "") = false := by
      by_cases hc : cn = ""
      · subst hc; simp [splitWS, splitWSAux] at h3
      · simpa using hc
    have h6' : (lowerL w0' == lowerL w2) = false := by simpa using h6
    have hsi : clientStartIndex (splitWS cn.data) (w0 :: w0' :: rest) = 1 := by
      rw [h3]; simp [clientStartIndex, h5, h6']
    simp only [extract_notes_from_summary, hb, Bool.false_eq_true, if_false, h1, h2,
      hcn, h4]
    simp [hsi]
  · intro summary cn w1 w2 w0 h0 h1 h2 h3 h4 h5
    have hb : (summary == "") = false := by simpa using h0
    have hcn : (cn == "") = false := by
      by_cases hc : cn = ""
      · subst hc; simp [splitWS, splitWSAux] at h3
      · simpa using hc
    have hsi : clientStartIndex (splitWS cn.data) [w0] = 1 := by
      rw [h3]; simp [clientStartIndex, h5]
    simp only [extract_notes_from_summary, hb, Bool.false_eq_true, if_false, h1, h2,
      hcn, h4]
    simp [hsi]

/-- Claim C7 witness: the client path at concrete titles, exercising the
two-token and the one-token consumption cases. -/
theorem notes_client_path_witness :
    extract_notes_from_summary "Anne Smith pruning (back)" (some "Anne Smith") =
      "pruning (back)" ∧
    extract_notes_from_summary "Thomas BOXWOODS + prune" (some "Thomas") =
      "BOXWOODS + prune" := by
  constructor
  · have h := notes_client_path.2.1 "Anne Smith pruning (back)" "Anne Smith"
      "Anne".data "Smith".data "Anne".data "Smith".data
      ["pruning".data, "(back)".data]
      (by decide) (by decide) (by decide) (by decide) (by decide) (by decide)
      (by decide)
    rw [h]
    decide
  · have h := notes_client_path.1 "Thomas BOXWOODS + prune" "Thomas" "Thomas".data
      "Thomas".data ["BOXWOODS".data, "+".data, "prune".data]
      (by decide) (by decide) (by decide) (by decide) (by decide) (by decide)
    rw [h]
    decide

/-- Claim C7 counterexample: the claim says a following "maintenance"/"maint"
TOKEN is stripped, but the code strips these as prefixes inside the first
remaining token: for "Thomas maintaining hedges" with client Thomas the code
returns "aining hedges", while token-level stripping (modelled from the
spec's wording) leaves "maintaining hedges" intact. -/
theorem notes_maint_token_counterexample :
    extract_notes_from_summary "Thomas maintaining hedges" (some "Thomas") =
      "aining hedges" ∧
    stripMaintTokenSpec "maintaining hedges".data = "maintaining hedges".data ∧
    ("aining hedges" : String) ≠ "maintaining hedges" := by
  refine ⟨by decide, by decide, by decide⟩

/-! ## Engine step lemmas -/

theorem processEvent_update_title {force : Bool} {clients : List (String × ClientRecord)}
    {sched : String → Option String} {now : DT} {e : RawEvent} {u : EventUpdate}
    (hu : (processEvent force clients sched now e).outcome = Outcome.update u) :
    u.summary = create_standardized_title
      (determine_status e.summary (parse_event_date now e).ts now.ts).2
      ((find_matching_client e.summary clients).map (fun c => c.full_name))
      (determine_work_type e.summary)
      ((get_helper_for_date (parse_event_date now e) sched).map map_helper_name)
      (extract_notes_from_summary e.summary
        ((find_matching_client e.summary clients).map (fun c => c.full_name))) := by
  by_cases h1 : isAllDay e = true
  · simp [processEvent, h1] at hu
  by_cases h2 : (e.summary == "") = true
  · simp [processEvent, h1, h2] at hu
  by_cases h3 : (is_already_processed e.summary && !force) = true
  · simp [processEvent, h1, h2, h3] at hu
  by_cases h4 : should_skip_event e.summary = true
  · simp [processEvent, h1, h2, h3, h4] at hu
  by_cases h5 : (isClientWorkType (determine_work_type e.summary) &&
      (find_matching_client e.summary clients).isNone) = true
  · simp [processEvent, h1, h2, h3, h4, h5] at hu
  · simp [processEvent, h1, h2, h3, h4, h5] at hu
    rw [← hu]

/-! ## Claim C10: force-reprocessing a bracketed title always relabels it C -/

/-- Claim C10: a title matching the already-processed bracket pattern has zero
leading stars, so `determine_status` returns (confirmed, C) on it regardless
of the event and reference dates; consequently whenever the engine emits an
update for an already-bracketed event under force-reprocess, the new title
begins with "[C]", discarding any embedded T or P status. -/
theorem bracketed_reprocess_always_C :
    (∀ s : String, is_already_processed s = true → count_stars_in_summary s = 0) ∧
    (∀ (s : String) (e r : Int), is_already_processed s = true →
      determine_status s e r = ("confirmed", "C")) ∧
    (∀ (clients : List (String × ClientRecord)) (sched : String → Option String)
       (now : DT) (e : RawEvent) (u : EventUpdate),
      is_already_processed e.summary = true →
      (processEvent true clients sched now e).outcome = Outcome.update u →
      leadsList "[C]".data u.summary.data = true) := by
  refine ⟨fun s h => stars_zero_of_bracketed h,
          fun s e r h => status_C_of_bracketed e r h,
          fun clients sched now e u hb hu => ?_⟩
  have ht := processEvent_update_title hu
  have hst : determine_status e.summary (parse_event_date now e).ts now.ts =
      ("confirmed", "C") := status_C_of_bracketed _ _ hb
  rw [hst] at ht
  obtain ⟨t, ht2⟩ := title_decomp "C"
    ((find_matching_client e.summary clients).map (fun c => c.full_name))
    (determine_work_type e.summary)
    ((get_helper_for_date (parse_event_date now e) sched).map map_helper_name)
    (extract_notes_from_summary e.summary
      ((find_matching_client e.summary clients).map (fun c => c.full_name)))
  rw [ht, ht2]
  rfl

/-- Claim C10 witness: a bracketed tentative title is relabelled confirmed. -/
theorem bracketed_reprocess_always_C_witness :
    determine_status "[T] Thomas - Maintenance" 999999 0 = ("confirmed", "C") :=
  bracketed_reprocess_always_C.2.1 "[T] Thomas - Maintenance" 999999 0 (by decide)

/-! ## Engine run lemmas -/

theorem processEvent_emits_iff (force : Bool) (clients : List (String × ClientRecord))
    (sched : String → Option String) (now : DT) (e : RawEvent) :
    (∃ u, (processEvent force clients sched now e).outcome = Outcome.update u) ↔
    emits force clients e = true := by
  by_cases h1 : isAllDay e = true
  · simp [processEvent, emits, h1]
  by_cases h2 : (e.summary == "") = true
  · simp [processEvent, emits, h1, h2]
  by_cases h3 : (is_already_processed e.summary && !force) = true
  · simp [processEvent, emits, h1, h2, h3]
  by_cases h4 : should_skip_event e.summary = true
  · simp [processEvent, emits, h1, h2, h3, h4]
  by_cases h5 : (isClientWorkType (determine_work_type e.summary) &&
      (find_matching_client e.summary clients).isNone) = true
  · simp [processEvent, emits, h1, h2, h3, h4, h5]
  · simp [processEvent, emits, h1, h2, h3, h4, h5]

theorem emits_mono {force : Bool} {clients : List (String × ClientRecord)}
    {e : RawEvent} (h : emits false clients e = true) :
    emits force clients e = true := by
  unfold emits at h ⊢
  simp only [Bool.and_eq_true, Bool.not_eq_true'] at h ⊢
  obtain ⟨⟨⟨⟨h1, h2⟩, h3⟩, h4⟩, h5⟩ := h
  have h3' : is_already_processed e.summary = false := by
    simpa using h3
  refine ⟨⟨⟨⟨h1, h2⟩, ?_⟩, h4⟩, h5⟩
  simp [h3']

theorem processEvent_noEmit_transfer {f1 : Bool}
    {clients : List (String × ClientRecord)} {sched1 sched2 : String → Option String}
    {now1 now2 : DT} {e : RawEvent}
    (h : ∀ u, (processEvent f1 clients sched1 now1 e).outcome ≠ Outcome.update u) :
    ∀ u, (processEvent false clients sched2 now2 e).outcome ≠ Outcome.update u := by
  intro u hu
  have h2 := (processEvent_emits_iff false clients sched2 now2 e).mp ⟨u, hu⟩
  have h3 : emits f1 clients e = true := emits_mono h2
  obtain ⟨u', hu'⟩ := (processEvent_emits_iff f1 clients sched1 now1 e).mpr h3
  exact h u' hu'

theorem bumpTally_toUpdate (r : StepRes) (t : Tally)
    (h : ∀ u, r.outcome ≠ Outcome.update u) :
    (bumpTally r t).toUpdate = t.toUpdate := by
  cases ho : r.outcome
  case update u => exact ((h u) ho).elim
  all_goals cases hca : r.countedAlready <;> simp [bumpTally, ho, hca]

theorem runLoop_applied_nil {dry force : Bool} {clients : List (String × ClientRecord)}
    {sched : String → Option String} {now : DT} {evs : List RawEvent}
    (h : ∀ e ∈ evs, ∀ u,
      (processEvent force clients sched now e).outcome ≠ Outcome.update u) :
    (runLoop dry force clients sched now evs).applied = [] ∧
    (runLoop dry force clients sched now evs).tally.toUpdate = 0 := by
  induction evs with
  | nil => exact ⟨rfl, rfl⟩
  | cons e es ih =>
    obtain ⟨ih1, ih2⟩ := ih (fun x hx u => h x (List.mem_cons_of_mem _ hx) u)
    have he := h e (List.mem_cons_self _ _)
    constructor
    · show (match (processEvent force clients sched now e).outcome with
        | Outcome.update u =>
          if dry then (runLoop dry force clients sched now es).applied
          else (e.id, u) :: (runLoop dry force clients sched now es).applied
        | _ => (runLoop dry force clients sched now es).applied) = []
      cases ho : (processEvent force clients sched now e).outcome
      case update u => exact ((he u) ho).elim
      all_goals exact ih1
    · show (bumpTally (processEvent force clients sched now e)
        (runLoop dry force clients sched now es).tally).toUpdate = 0
      rw [bumpTally_toUpdate _ _ he]
      exact ih2

theorem mem_applied_of_emit {force : Bool} {clients : List (String × ClientRecord)}
    {sched : String → Option String} {now : DT} {evs : List RawEvent} {e : RawEvent}
    {u : EventUpdate} (he : e ∈ evs)
    (hu : (processEvent force clients sched now e).outcome = Outcome.update u) :
    (e.id, u) ∈ (runLoop false force clients sched now evs).applied := by
  induction evs with
  | nil => cases he
  | cons e0 es ih =>
    have happ : (runLoop false force clients sched now (e0 :: es)).applied =
        (match (processEvent force clients sched now e0).outcome with
         | Outcome.update u0 =>
           (e0.id, u0) :: (runLoop false force clients sched now es).applied
         | _ => (runLoop false force clients sched now es).applied) := rfl
    rcases List.mem_cons.mp he with heq | hmem
    · subst heq
      rw [happ, hu]
      exact List.mem_cons_self _ _
    · rw [happ]
      cases ho : (processEvent force clients sched now e0).outcome <;>
        first
        | exact ih hmem
        | exact List.mem_cons_of_mem _ (ih hmem)

theorem processEvent_update_bracketed {force : Bool}
    {clients : List (String × ClientRecord)} {sched : String → Option String}
    {now : DT} {e : RawEvent} {u : EventUpdate}
    (hu : (processEvent force clients sched now e).outcome = Outcome.update u) :
    is_already_processed u.summary = true := by
  rw [processEvent_update_title hu]
  exact bracketed_of_label (status_label_cases _ _ _) _ _ _ _

theorem applied_bracketed {dry force : Bool} {clients : List (String × ClientRecord)}
    {sched : String → Option String} {now : DT} (evs : List RawEvent) :
    ∀ p ∈ (runLoop dry force clients sched now evs).applied,
      is_already_processed p.2.summary = true := by
  induction evs with
  | nil => intro p hp; cases hp
  | cons e es ih =>
    intro p hp
    have happ : (runLoop dry force clients sched now (e :: es)).applied =
        (match (processEvent force clients sched now e).outcome with
         | Outcome.update u0 =>
           if dry then (runLoop dry force clients sched now es).applied
           else (e.id, u0) :: (runLoop dry force clients sched now es).applied
         | _ => (runLoop dry force clients sched now es).applied) := rfl
    rw [happ] at hp
    cases ho : (processEvent force clients sched now e).outcome <;> rw [ho] at hp
    case update u0 =>
      cases dry with
      | true => exact ih p hp
      | false =>
        rcases List.mem_cons.mp hp with heq | hmem
        · subst heq
          exact processEvent_update_bracketed ho
        · exact ih p hmem
    all_goals exact ih p hp

theorem processEvent_bracketed_skip {clients : List (String × ClientRecord)}
    {sched : String → Option String} {now : DT} {e : RawEvent}
    (hb : is_already_processed e.summary = true) (ha : isAllDay e = false) :
    processEvent false clients sched now e = ⟨Outcome.alreadySkip, true⟩ := by
  have hne : (e.summary == "") = false := by
    have : e.summary ≠ "" := by
      intro hh
      rw [hh] at hb
      simp [is_already_processed] at hb
    simpa using this
  simp [processEvent, ha, hne, hb]

/-! ## Claim C5: dry-run equivalence -/

theorem runLoop_dry_run_eq (force : Bool) (clients : List (String × ClientRecord))
    (sched : String → Option String) (now : DT) (evs : List RawEvent) :
    (runLoop true force clients sched now evs).outcomes =
      (runLoop false force clients sched now evs).outcomes ∧
    (runLoop true force clients sched now evs).tally =
      (runLoop false force clients sched now evs).tally ∧
    (runLoop true force clients sched now evs).applied = [] := by
  induction evs with
  | nil => exact ⟨rfl, rfl, rfl⟩
  | cons e es ih =>
    obtain ⟨ih1, ih2, ih3⟩ := ih
    refine ⟨?_, ?_, ?_⟩
    · show (e.id, processEvent force clients sched now e) ::
        (runLoop true force clients sched now es).outcomes =
        (e.id, processEvent force clients sched now e) ::
        (runLoop false force clients sched now es).outcomes
      rw [ih1]
    · show bumpTally (processEvent force clients sched now e)
        (runLoop true force clients sched now es).tally =
        bumpTally (processEvent force clients sched now e)
        (runLoop false force clients sched now es).tally
      rw [ih2]
    · show (match (processEvent force clients sched now e).outcome with
        | Outcome.update u =>
          if true then (runLoop true force clients sched now es).applied
          else (e.id, u) :: (runLoop true force clients sched now es).applied
        | _ => (runLoop true force clients sched now es).applied) = []
      cases ho : (processEvent force clients sched now e).outcome <;> simpa using ih3

/-- Claim C5: for the same event list, roster and reference date, a dry run
computes exactly the same per-event results (outcomes, including each
computed new title, color id, description and location) and the same tally
as a live run, and issues no mutating update call. -/
theorem dry_run_equivalence (force : Bool) (clients : List (String × ClientRecord))
    (now : DT) (events : List RawEvent) :
    (enhance true force clients now events).outcomes =
      (enhance false force clients now events).outcomes ∧
    (enhance true force clients now events).tally =
      (enhance false force clients now events).tally ∧
    (enhance true force clients now events).applied = [] :=
  runLoop_dry_run_eq force clients (extract_helper_info_from_events events) now events

/-! ## Claim C9: malformed-input handling -/

/-- Claim C9 (amended). An event with a missing (empty) title that is not
all-day is skipped before any classification, but it is not counted: its
tally contribution is zero (the run tally has no counter for it). An event
with a missing start marker is not skipped at all: `parse_event_date` falls
back to the current time, and the event proceeds through classification. -/
theorem malformed_input_handling :
    (∀ (force : Bool) (clients : List (String × ClientRecord))
       (sched : String → Option String) (now : DT) (e : RawEvent),
      e.summary = "" → isAllDay e = false →
      processEvent force clients sched now e = ⟨Outcome.skippedNoSummary, false⟩) ∧
    (∀ t : Tally, bumpTally ⟨Outcome.skippedNoSummary, false⟩ t = t) ∧
    (∀ (now : DT) (e : RawEvent), e.start = none → parse_event_date now e = now) := by
  refine ⟨fun force clients sched now e hs ha => ?_, fun t => rfl,
          fun now e hst => ?_⟩
  · simp [processEvent, ha, hs]
  · simp [parse_event_date, hst]

/-- Claim C9 witness: a concrete timed event with empty title is skipped
without being counted. -/
theorem malformed_input_handling_witness :
    processEvent false [] (fun _ => none) ⟨"2025-06-15", 0⟩ ⟨"a", "", none⟩ =
      ⟨Outcome.skippedNoSummary, false⟩ :=
  malformed_input_handling.1 false [] (fun _ => none) ⟨"2025-06-15", 0⟩
    ⟨"a", "", none⟩ rfl (by decide)

/-- Claim C9 counterexample: a missing-title event leaves every tally counter
at zero (it is not "counted separately"), and a missing-start-marker event is
not skipped — the engine classifies it (with the current time as its date)
and emits an update. -/
theorem malformed_input_counterexample :
    enhance false false [] ⟨"2025-06-15", 0⟩ [⟨"a", "", none⟩] =
      ⟨[("a", ⟨Outcome.skippedNoSummary, false⟩)], [], ⟨0, 0, 0, 0⟩⟩ ∧
    (enhance false false [] ⟨"2025-06-15", 0⟩ [⟨"b", "Errands run", none⟩]).applied =
      [("b", ⟨"[C] Errands | run", "6", "WORK TYPE: Errands\nDETAILS: run", none⟩)] := by
  refine ⟨by decide, by decide⟩

/-! ## Claim C1: idempotence of the rewrite -/

/-- Claim C1. Every title produced by `create_standardized_title` with a
status label in {C, T, P} satisfies `is_already_processed`; consequently a
second engine run (without force-reprocess) over the event list patched with
the first run's emitted updates issues no update call and counts zero events
to update: patched events carry bracketed titles and are skipped as already
processed, and events the first run skipped are skipped again. -/
theorem formatter_idempotence :
    (∀ label : String, (label = "C" ∨ label = "T" ∨ label = "P") →
      ∀ (c : Option String) (wt : String) (hp : Option String) (n : String),
        is_already_processed (create_standardized_title label c wt hp n) = true) ∧
    (∀ (force : Bool) (clients : List (String × ClientRecord)) (now now2 : DT)
       (events : List RawEvent),
      (enhance false false clients now2
        (applyUpdates events (enhance false force clients now events).applied)).applied
        = [] ∧
      (enhance false false clients now2
        (applyUpdates events (enhance false force clients now events).applied)).tally.toUpdate
        = 0) := by
  refine ⟨fun label hl c wt hp n => bracketed_of_label hl c wt hp n,
          fun force clients now now2 events => ?_⟩
  apply runLoop_applied_nil
  intro e' he' u hu
  simp only [applyUpdates, List.mem_map] at he'
  obtain ⟨e, he, heq⟩ := he'
  cases hlk : ((enhance false force clients now events).applied).lookup e.id with
  | some u0 =>
    have he'' : e' = { e with summary := u0.summary } := by
      rw [← heq, hlk]
    have hb : is_already_processed u0.summary = true := by
      have hm := mem_of_lookup_eq_some hlk
      exact applied_bracketed events (e.id, u0) hm
    cases ha : isAllDay e' with
    | true => simp [processEvent, ha] at hu
    | false =>
      have hb' : is_already_processed e'.summary = true := by rw [he'']; exact hb
      rw [processEvent_bracketed_skip hb' ha] at hu
      simp at hu
  | none =>
    have he2 : e' = e := by rw [← heq, hlk]
    rw [he2] at hu
    have hnoem : ∀ u1, (processEvent force clients
        (extract_helper_info_from_events events) now e).outcome ≠
        Outcome.update u1 := by
      intro u1 hu1
      have hmem := mem_applied_of_emit he hu1
      have hsome : (((enhance false force clients now events).applied).lookup e.id).isSome
          = true := lookup_isSome_of_mem hmem
      rw [hlk] at hsome
      simp at hsome
    exact processEvent_noEmit_transfer hnoem u hu

/-- Claim C1 witness: a concrete formatter output is recognized as already
processed. -/
theorem formatter_idempotence_witness :
    is_already_processed
      (create_standardized_title "C" (some "Thomas") "Maintenance" (some "Anne")
        "prune") = true :=
  formatter_idempotence.1 "C" (Or.inl rfl) (some "Thomas") "Maintenance"
    (some "Anne") "prune"

/-! ## Round-trip lemmas (C2) -/

theorem title_client_data (label key wt : String) (helper : Option String)
    (notes : String) (hk : (key == "") = false) :
    ∃ R : List Char,
      (create_standardized_title label (some key) wt helper notes).data =
        '[' :: (label.data ++ (']' :: (' ' :: (key.data ++
          (' ' :: ('-' :: (' ' :: (wt.data ++ R)))))))) := by
  obtain ⟨t, ht⟩ := joinParts_head wt
    ((match helper with
      | some h => if h == "" then [] else ["(" ++ h ++ ")"]
      | none => ([] : List String)) ++ (if notes == "" then [] else ["| " ++ notes]))
  refine ⟨t.data, ?_⟩
  unfold create_standardized_title
  simp only [hk, Bool.false_eq_true, if_false]
  show (joinParts (("[" ++ label ++ "]") :: ([key, "-", wt] ++ _ ++ _))).data = _
  simp only [List.cons_append, List.nil_append]
  rw [show ∀ (a b c d : String) (l : List String),
      joinParts (a :: b :: c :: d :: l) =
        a ++ " " ++ (b ++ " " ++ (c ++ " " ++ joinParts (d :: l)))
    from fun a b c d l => rfl]
  rw [ht]
  simp [String.data_append, List.append_assoc]

theorem bracketScan_cons_ne {c : Char} (t : List Char) (h1 : (c == ']') = false)
    (h2 : (c == '\n') = false) : bracketScan (c :: t) = bracketScan t := by
  simp [bracketScan, h1, h2]

theorem bracketScan_close {t : List Char} (h : restOk t = true) :
    bracketScan (']' :: t) = some t := by
  simp [bracketScan, h]

theorem restOk_shape (key rest2 : List Char) :
    restOk (' ' :: (key ++ ' ' :: '-' :: rest2)) = true := by
  show ((' ' != '-') && (key ++ ' ' :: '-' :: rest2).any (fun d => d == '-')) = true
  rw [show ((' ' : Char) != '-') = true from rfl, Bool.true_and, List.any_append]
  simp [List.any_cons]

theorem takeWhile_until_dash (key : List Char) (rest2 : List Char)
    (hdash : ∀ c ∈ key, (fun d => d != '-') c = true) :
    (' ' :: (key ++ ' ' :: '-' :: rest2)).takeWhile (fun d => d != '-') =
      ' ' :: (key ++ [' ']) := by
  rw [List.takeWhile_cons]
  rw [takeWhile_append_all _ hdash]
  simp [List.takeWhile_cons]

theorem bracketScan_label {label : String}
    (hlab : label = "C" ∨ label = "T" ∨ label = "P") (tail0 : List Char)
    (h : restOk tail0 = true) :
    bracketScan (label.data ++ (']' :: tail0)) = some tail0 := by
  rcases hlab with rfl | rfl | rfl
  · show bracketScan ('C' :: ']' :: tail0) = some tail0
    rw [bracketScan_cons_ne _ (by decide) (by decide), bracketScan_close h]
  · show bracketScan ('T' :: ']' :: tail0) = some tail0
    rw [bracketScan_cons_ne _ (by decide) (by decide), bracketScan_close h]
  · show bracketScan ('P' :: ']' :: tail0) = some tail0
    rw [bracketScan_cons_ne _ (by decide) (by decide), bracketScan_close h]

theorem title_nonempty (label : String) (c : Option String) (wt : String)
    (hp : Option String) (n : String) :
    (create_standardized_title label c wt hp n == "") = false := by
  obtain ⟨t, ht⟩ := title_decomp label c wt hp n
  rw [ht]
  have hne : ("[" ++ label ++ "]") ++ t ≠ "" := by
    intro h0
    have hlen := congrArg List.length (congrArg String.data h0)
    simp [String.data_append] at hlen
  simpa using hne

theorem extract_on_client_title (label key wt : String) (helper : Option String)
    (notes : String)
    (hlab : label = "C" ∨ label = "T" ∨ label = "P")
    (hk : key ≠ "")
    (hdash : '-' ∉ key.data)
    (hh : key.data.head?.all (fun c => !isWS c) = true)
    (hl : key.data.getLast?.all (fun c => !isWS c) = true) :
    extract_client_name (create_standardized_title label (some key) wt helper notes) =
      ExtractRes.named key key := by
  have hkb : (key == "") = false := by simpa using hk
  obtain ⟨R, hR⟩ := title_client_data label key wt helper notes hkb
  have hTne := title_nonempty label (some key) wt helper notes
  have hdash' : ∀ c ∈ key.data, (fun d => d != '-') c = true := by
    intro c hc
    have hcne : c ≠ '-' := fun hcc => hdash (hcc ▸ hc)
    simpa using hcne
  have hro := restOk_shape key.data (' ' :: (wt.data ++ R))
  have htw := takeWhile_until_dash key.data (' ' :: (wt.data ++ R)) hdash'
  have hkne : key.data ≠ [] := by
    intro h0
    exact hk (String.ext h0)
  have htrim : trimL (' ' :: (key.data ++ [' '])) = key.data := trimL_pad hkne hh hl
  have hscan := bracketScan_label hlab
    (' ' :: (key.data ++ (' ' :: ('-' :: (' ' :: (wt.data ++ R)))))) hro
  simp only [extract_client_name, hTne, Bool.false_eq_true, if_false, hR,
    show ('[' == '[') = true from rfl, if_true, hscan, htw, htrim,
    show String.mk key.data = key from rfl]

theorem find_on_client_title (clients : List (String × ClientRecord))
    (key : String) (rec0 : ClientRecord) (label wt : String)
    (helper : Option String) (notes : String)
    (hnd : (clients.map Prod.fst).Nodup)
    (hmem : (key, rec0) ∈ clients)
    (hlab : label = "C" ∨ label = "T" ∨ label = "P")
    (hk : key ≠ "")
    (hdash : '-' ∉ key.data)
    (hh : key.data.head?.all (fun c => !isWS c) = true)
    (hl : key.data.getLast?.all (fun c => !isWS c) = true) :
    find_matching_client (create_standardized_title label (some key) wt helper notes)
      clients = some rec0 := by
  have hkb : (key == "") = false := by simpa using hk
  have hext := extract_on_client_title label key wt helper notes hlab hk hdash hh hl
  have hTne := title_nonempty label (some key) wt helper notes
  simp only [find_matching_client, hTne, Bool.false_eq_true, if_false, hext,
    exactLookup, hkb, lookup_eq_of_mem hnd hmem]

theorem wt_infix_in_title (label key wt : String) (helper : Option String)
    (notes : String) (hkb : (key == "") = false) :
    lowerL wt.data <:+:
      cleanLower (create_standardized_title label (some key) wt helper notes) := by
  obtain ⟨R, hR⟩ := title_client_data label key wt helper notes hkb
  have hclean : cleanLower (create_standardized_title label (some key) wt helper notes)
      = lowerL (create_standardized_title label (some key) wt helper notes).data := by
    unfold cleanLower
    rw [hR]
    rfl
  rw [hclean, hR]
  refine List.IsInfix.map lowerChar ?_
  exact ⟨'[' :: (label.data ++ (']' :: (' ' :: (key.data ++ [' ', '-', ' '])))), R,
    by simp⟩

/-! ## Claim C2: round-trip recovery -/

/-- Claim C2 (amended). Restricted round trip: when the client's roster key
equals its full display name, is nonempty, whitespace-trimmed and contains no
hyphen (and roster keys are distinct), feeding the standardized title back
through extract_client_name / find_matching_client recovers the same
ClientRecord, for any status label in {C, T, P}, helper and notes.
determine_work_type recovers the work type for Design unconditionally, and
for Office Work / Errands / Maintenance provided no strictly
higher-precedence classifier keyword (and, for Maintenance, no classifier
keyword at all) occurs in the lower-cased title. The unrestricted claim fails
both for Ad-hoc (whose keyword list does not contain "ad-hoc") and for
clients whose full name carries a parenthetical code differing from the
roster key. -/
theorem round_trip_recovery (clients : List (String × ClientRecord))
    (key : String) (rec0 : ClientRecord) (label wt : String)
    (helper : Option String) (notes : String)
    (hnd : (clients.map Prod.fst).Nodup)
    (hmem : (key, rec0) ∈ clients)
    (hfn : rec0.full_name = key)
    (hlab : label = "C" ∨ label = "T" ∨ label = "P")
    (hk : key ≠ "")
    (hdash : '-' ∉ key.data)
    (hh : key.data.head?.all (fun c => !isWS c) = true)
    (hl : key.data.getLast?.all (fun c => !isWS c) = true)
    (hwt : wt = "Design" ∨
      (wt = "Office Work" ∧
        designHit (cleanLower (create_standardized_title label (some key) wt helper
          notes)) = false) ∨
      (wt = "Errands" ∧
        designHit (cleanLower (create_standardized_title label (some key) wt helper
          notes)) = false ∧
        officeHit (cleanLower (create_standardized_title label (some key) wt helper
          notes)) = false) ∨
      (wt = "Maintenance" ∧
        designHit (cleanLower (create_standardized_title label (some key) wt helper
          notes)) = false ∧
        officeHit (cleanLower (create_standardized_title label (some key) wt helper
          notes)) = false ∧
        errandsHit (cleanLower (create_standardized_title label (some key) wt helper
          notes)) = false ∧
        adhocHit (cleanLower (create_standardized_title label (some key) wt helper
          notes)) = false)) :
    find_matching_client (create_standardized_title label (some key) wt helper notes)
      clients = some rec0 ∧
    (find_matching_client (create_standardized_title label (some key) wt helper notes)
      clients).map (fun c => c.full_name) = some key ∧
    determine_work_type (create_standardized_title label (some key) wt helper notes)
      = wt := by
  have hkb : (key == "") = false := by simpa using hk
  have hfind := find_on_client_title clients key rec0 label wt helper notes
    hnd hmem hlab hk hdash hh hl
  have hTne := title_nonempty label (some key) wt helper notes
  refine ⟨hfind, by rw [hfind]; simp [hfn], ?_⟩
  have hinf := wt_infix_in_title label key wt helper notes hkb
  rcases hwt with rfl | ⟨rfl, hd⟩ | ⟨rfl, hd, ho⟩ | ⟨rfl, hd, ho, he, ha⟩
  · have hdes : designHit (cleanLower (create_standardized_title label (some key)
        "Design" helper notes)) = true := by
      have hsub : hasSub "design".data (cleanLower (create_standardized_title label
          (some key) "Design" helper notes)) = true := by
        rw [hasSub_iff]
        exact List.IsInfix.trans (by exact ⟨[], [], by decide⟩) hinf
      simp [designHit, hsub]
    simp [determine_work_type, hTne, hdes]
  · have hoff : officeHit (cleanLower (create_standardized_title label (some key)
        "Office Work" helper notes)) = true := by
      have hsub : hasSub "office".data (cleanLower (create_standardized_title label
          (some key) "Office Work" helper notes)) = true := by
        rw [hasSub_iff]
        exact List.IsInfix.trans (by exact ⟨[], " work".data, by decide⟩) hinf
      simp [officeHit, hsub]
    simp [determine_work_type, hTne, hd, hoff]
  · have herr : errandsHit (cleanLower (create_standardized_title label (some key)
        "Errands" helper notes)) = true := by
      have hsub : hasSub "errands".data (cleanLower (create_standardized_title label
          (some key) "Errands" helper notes)) = true := by
        rw [hasSub_iff]
        exact List.IsInfix.trans (by exact ⟨[], [], by decide⟩) hinf
      simp [errandsHit, hsub]
    simp [determine_work_type, hTne, hd, ho, herr]
  · simp [determine_work_type, hTne, hd, ho, he, ha]

/-- Claim C2 witness: round trip at a concrete roster and Maintenance title. -/
theorem round_trip_recovery_witness :
    find_matching_client (create_standardized_title "C" (some "Silver") "Maintenance"
        none "") [("Silver", ⟨"Silver", "12 Elm", "", "", "", "", "", "", ""⟩)] =
      some ⟨"Silver", "12 Elm", "", "", "", "", "", "", ""⟩ ∧
    determine_work_type (create_standardized_title "C" (some "Silver") "Maintenance"
        none "") = "Maintenance" := by
  have h := round_trip_recovery
    [("Silver", ⟨"Silver", "12 Elm", "", "", "", "", "", "", ""⟩)]
    "Silver" ⟨"Silver", "12 Elm", "", "", "", "", "", "", ""⟩ "C" "Maintenance"
    none "" (by decide) (by decide) (by decide) (Or.inl rfl) (by decide) (by decide)
    (by decide) (by decide)
    (Or.inr (Or.inr (Or.inr ⟨rfl, by decide, by decide, by decide, by decide⟩)))
  exact ⟨h.1, h.2.2⟩

/-- Claim C2 counterexample: the round trip fails as stated. For a roster
client keyed "Silver" whose full display name is "Silver (C013)" (the code's
own documented shape), the standardized Maintenance title re-extracts the
full name, which matches no roster key, so the matcher returns none instead
of the same ClientRecord; and for work type Ad-hoc, whose keyword list does
not contain "ad-hoc", the classifier returns Maintenance instead of Ad-hoc
even with an exact roster client. -/
theorem round_trip_counterexample :
    find_matching_client
        (create_standardized_title "C" (some "Silver (C013)") "Maintenance" none "")
        [("Silver", ⟨"Silver (C013)", "", "", "", "", "", "", "", ""⟩)] = none ∧
    determine_work_type (create_standardized_title "C" (some "Silver") "Ad-hoc"
        none "") = "Maintenance" ∧
    ("Maintenance" : String) ≠ "Ad-hoc" := by
  refine ⟨by decide, by decide, by decide⟩

end CalEnh
